import Mathlib

set_option maxRecDepth 16384

/-!
Shallow embedding of the prompt/background construction code of the
llama2 quest-generation repository.

The repository duplicates the composer between two notebooks:

* `create_generation_prompt_formats` (run-tuned-model.ipynb): Phase A
  samples `min(KG_DEPTH - 1, len(relations))` relations per kb when
  `KG_DEPTH > 0`; Phase B (graph traversal) runs only when `KG_DEPTH > 0`,
  with `nx.dfs_edges(kg, source, depth_limit=KG_DEPTH)`.
* `create_training_prompt_formats` (finetune-llama2.ipynb): Phase A always
  emits the description and all relations (no sampling, `KG_DEPTH` unused);
  Phase B runs unconditionally with `nx.dfs_edges(kg, source)` (no depth
  limit, i.e. `depth_limit = len(G)`), and introduces a traversal target
  `ent2` with the sentence `f'{ent1} is a {e2_type}. '` (naming `ent1`).

Both are modelled here, producing a list of emission events (one event per
`background +=` statement of the source, in source order); the composed
string is the concatenation of the rendered events.  Each relation-sentence
event is tagged with the entity pair recorded into `completed_rels`, and
each introduction event is tagged with the entity appended to
`completed_nodes`, so that the dedup invariants can be stated precisely.
-/

/-- Python `str.capitalize`: first character upper-cased, the rest lower-cased. -/
def pyCapitalize (s : String) : String :=
  match s.data with
  | [] => ""
  | c :: cs => String.mk (c.toUpper :: cs.map Char.toLower)

/-- Python `str.lower` (ASCII model, matching `Char.toLower`). -/
def strLower (s : String) : String := String.mk (s.data.map Char.toLower)

/-- Python `needle in hay` for strings: substring containment. -/
def strContains (hay needle : String) : Bool := decide (needle.data <:+: hay.data)

/-- An entity knowledge record of a quest example (one element of `input['kbs']`):
name, description, type, and the ordered relation list of `(label, target)` pairs. -/
structure KB where
  name : String
  desc : String
  etype : String
  relations : List (String × String)
deriving DecidableEq

/-- A node of the game knowledge graph with its `type` and `description` attributes. -/
structure KGNode where
  name : String
  etype : String
  desc : String
deriving DecidableEq

/-- A game knowledge graph: nodes in stored (iteration) order and directed
labelled edges `(source, target, label)` in stored order. -/
structure KG where
  nodes : List KGNode
  edges : List (String × String × String)
deriving DecidableEq

/-- Successors of `u` in stored edge order (`iter(G[u])` of the digraph). -/
def KG.adj (g : KG) (u : String) : List String :=
  (g.edges.filter (fun e => e.1 == u)).map (fun e => e.2.1)

/-- Node attribute lookup `all_nodes[n]['type']` (defaults to `""`;
the Python code would raise `KeyError` for a node absent from the graph,
which does not occur for traversed nodes). -/
def KG.typeOf (g : KG) (n : String) : String :=
  ((g.nodes.find? (fun x => x.name == n)).map KGNode.etype).getD ""

/-- Node attribute lookup `all_nodes[n]['description']`. -/
def KG.descOf (g : KG) (n : String) : String :=
  ((g.nodes.find? (fun x => x.name == n)).map KGNode.desc).getD ""

/-- Edge attribute lookup `kg[a][b]['label']`. -/
def KG.labelOf (g : KG) (a b : String) : String :=
  ((g.edges.find? (fun e => e.1 == a && e.2.1 == b)).map (fun e => e.2.2)).getD ""

/-- The recursive core of `nx.dfs_edges(G, source, depth_limit)`: visit the
children of `u` in adjacency order, where `fuel` is the remaining depth
budget at `u` (the networkx stack entry carries `depth_now`, children are
always yielded, and a child is pushed only while `depth_now > 1`, i.e. here
only while `fuel ≥ 2`, descending with budget `fuel - 1`).  Yields the
traversal edges in order and returns the final visited set. -/
def dfsVisit (adj : String → List String) :
    Nat → String → List String → List (String × String) × List String
  | 0, u, vis =>
    (adj u).foldl
      (fun acc c =>
        if c ∈ acc.2 then acc else (acc.1 ++ [(u, c)], c :: acc.2))
      ([], vis)
  | Nat.succ f, u, vis =>
    (adj u).foldl
      (fun acc c =>
        if c ∈ acc.2 then acc
        else if 0 < f then
          let r1 := dfsVisit adj f c (c :: acc.2)
          (acc.1 ++ (u, c) :: r1.1, r1.2)
        else (acc.1 ++ [(u, c)], c :: acc.2))
      ([], vis)

/-- Model of `list(nx.dfs_edges(G, source, depth_limit=fuel))`. -/
def dfsEdges (adj : String → List String) (fuel : Nat) (src : String) :
    List (String × String) :=
  (dfsVisit adj fuel src [src]).1

/-- One emission event of the composer, corresponding to one
`background += ...` statement of the source.  `intro e s` is an entity
introduction (the entity `e` is the one appended to `completed_nodes`),
`rel a b s` is a relation sentence (the pair `(a, b)` is the one appended to
`completed_rels`), `txt s` is any other piece (descriptions and newlines). -/
inductive Ev where
  | intro (e : String) (s : String)
  | txt (s : String)
  | rel (a b : String) (s : String)
deriving DecidableEq

/-- Rendered text of an event. -/
def Ev.render : Ev → String
  | .intro _ s => s
  | .txt s => s
  | .rel _ _ s => s

/-- Concatenation of the rendered events: the composed background text. -/
def renderEvs (l : List Ev) : String := String.join (l.map Ev.render)

/-- Relation-pair tags of the relation-sentence events, in emission order. -/
def relTags : List Ev → List (String × String)
  | [] => []
  | Ev.rel a b _ :: t => (a, b) :: relTags t
  | _ :: t => relTags t

/-- Entity tags of the introduction events, in emission order. -/
def introTags : List Ev → List String
  | [] => []
  | Ev.intro e _ :: t => e :: introTags t
  | _ :: t => introTags t

/-- Composer state: emitted events, `completed_nodes`, `completed_rels`. -/
structure BState where
  evs : List Ev
  nodes : List String
  rels : List (String × String)
deriving DecidableEq

/-- Sample size of Phase A of the generation path for `depth > 0`:
`depth = KG_DEPTH - 1; if depth > len(e_relations): depth = len(e_relations)`. -/
def sampleSize (depth : Int) (rels : List (String × String)) : Nat :=
  (min (depth - 1) (rels.length : Int)).toNat

/-- Relation-sentence event of Phase A of the generation path
(`f'{entity} is {rel[0]} {rel[1]}. '`, trailing space). -/
def relEvGen (n : String) (r : String × String) : Ev :=
  Ev.rel n r.2 (n ++ " is " ++ r.1 ++ " " ++ r.2 ++ ". ")

/-- Relation-sentence event of Phase A of the training path
(`f'{entity} is {rel[0]} {rel[1]}.'`, no trailing space in the source). -/
def relEvTrain (n : String) (r : String × String) : Ev :=
  Ev.rel n r.2 (n ++ " is " ++ r.1 ++ " " ++ r.2 ++ ".")

/-- The `relations` local variable of Phase A of the generation path:
`random.sample(e_relations, depth)` with the clamped size when
`KG_DEPTH > 0`, else all of `e_relations`. -/
def pickedRels (sampler : List (String × String) → Nat → List (String × String))
    (depth : Int) (kb : KB) : List (String × String) :=
  if 0 < depth then sampler kb.relations (sampleSize depth kb.relations)
  else kb.relations

/-- Phase A step of `create_generation_prompt_formats` for one kb record:
introduction, then (for `KG_DEPTH > 0`) the description sentence and a
random sample of `sampleSize` relations, else all relations; each emitted
relation records its pair, the entity is recorded, and a newline is emitted. -/
def stepKbGen (sampler : List (String × String) → Nat → List (String × String))
    (depth : Int) (st : BState) (kb : KB) : BState :=
  let introEv := Ev.intro kb.name (kb.name ++ " is a " ++ kb.etype ++ ". ")
  let descEvs : List Ev :=
    if 0 < depth then
      if kb.name ≠ kb.desc then [Ev.txt (kb.name ++ " is " ++ kb.desc ++ ". ")] else []
    else []
  let rels : List (String × String) := pickedRels sampler depth kb
  { evs := st.evs ++ [introEv] ++ descEvs ++ rels.map (relEvGen kb.name) ++ [Ev.txt "\n"],
    nodes := st.nodes ++ [kb.name],
    rels := st.rels ++ rels.map (fun r => (kb.name, r.2)) }

/-- Phase A step of `create_training_prompt_formats` for one kb record:
introduction, description sentence, and all relations (the training notebook
has no depth handling in Phase A). -/
def stepKbTrain (st : BState) (kb : KB) : BState :=
  let introEv := Ev.intro kb.name (kb.name ++ " is a " ++ kb.etype ++ ". ")
  let descEvs : List Ev :=
    if kb.name ≠ kb.desc then [Ev.txt (kb.name ++ " is " ++ kb.desc ++ ". ")] else []
  { evs := st.evs ++ [introEv] ++ descEvs ++ kb.relations.map (relEvTrain kb.name) ++ [Ev.txt "\n"],
    nodes := st.nodes ++ [kb.name],
    rels := st.rels ++ kb.relations.map (fun r => (kb.name, r.2)) }

/-- Phase A of the generation path over all kb records. -/
def phaseAGen (sampler : List (String × String) → Nat → List (String × String))
    (depth : Int) (kbs : List KB) : BState :=
  kbs.foldl (stepKbGen sampler depth) ⟨[], [], []⟩

/-- Phase A of the training path over all kb records. -/
def phaseATrain (kbs : List KB) : BState :=
  kbs.foldl stepKbTrain ⟨[], [], []⟩

/-- Relation-sentence events of the label dispatch shared verbatim by both
notebooks: three successive `if` statements on the edge label, two of which
branch on the type of `ent1`. -/
def relPieceEvs (rel e1 e2 e1t : String) : List Ev :=
  (if rel = "connected to" then
    [Ev.rel e1 e2 (e1 ++ " is connected to " ++ e2 ++ ". ")] else [])
  ++ (if rel = "present in" then
    (if e1t = "location" then
      [Ev.rel e1 e2 (e2 ++ " is present in " ++ e2 ++ ". ")]
    else
      [Ev.rel e1 e2 (e1 ++ " is present in " ++ e2 ++ ". ")]) else [])
  ++ (if rel = "held by" then
    (if e1t = "character" then
      [Ev.rel e1 e2 (e2 ++ " is held by " ++ e1 ++ ". ")]
    else
      [Ev.rel e1 e2 (e1 ++ " is held by " ++ e2 ++ ". ")]) else [])

/-- Introduction block of the generation path for an uncompleted node `n`:
`f'{n} is a {type}. '`, the description sentence when it differs from the
name, and a newline. -/
def introBlockGen (g : KG) (n : String) : List Ev :=
  [Ev.intro n (n ++ " is a " ++ g.typeOf n ++ ". ")]
  ++ (if g.descOf n ≠ n then [Ev.txt (n ++ " is " ++ g.descOf n ++ ". ")] else [])
  ++ [Ev.txt "\n"]

/-- Introduction block of the training path for an uncompleted traversal
target `tgt` of edge `(src, tgt)`: the source writes
`f'{ent1} is a {e2_type}. '`, i.e. the sentence names `src` while using the
type of `tgt`, and `tgt` is the entity recorded as completed. -/
def introBlockTrainTarget (g : KG) (src tgt : String) : List Ev :=
  [Ev.intro tgt (src ++ " is a " ++ g.typeOf tgt ++ ". ")]
  ++ (if g.descOf tgt ≠ tgt then [Ev.txt (tgt ++ " is " ++ g.descOf tgt ++ ". ")] else [])
  ++ [Ev.txt "\n"]

/-- Phase B edge processing of the generation path: skip edges whose pair is
already recorded (in either order); introduce the endpoints that are not yet
completed; emit the label-dispatched relation sentence; always append a
newline; record the pair. -/
def stepEdgeGen (g : KG) (st : BState) (e : String × String) : BState :=
  if (e.1, e.2) ∈ st.rels ∨ (e.2, e.1) ∈ st.rels then st
  else
    let evs1 := if e.1 ∈ st.nodes then [] else introBlockGen g e.1
    let nodes1 := if e.1 ∈ st.nodes then st.nodes else st.nodes ++ [e.1]
    let evs2 := if e.2 ∈ nodes1 then [] else introBlockGen g e.2
    let nodes2 := if e.2 ∈ nodes1 then nodes1 else nodes1 ++ [e.2]
    { evs := st.evs ++ evs1 ++ evs2
        ++ relPieceEvs (g.labelOf e.1 e.2) e.1 e.2 (g.typeOf e.1) ++ [Ev.txt "\n"],
      nodes := nodes2,
      rels := st.rels ++ [(e.1, e.2)] }

/-- Phase B edge processing of the training path: identical to the generation
path except that the introduction block of the target names the edge source
(`introBlockTrainTarget`). -/
def stepEdgeTrain (g : KG) (st : BState) (e : String × String) : BState :=
  if (e.1, e.2) ∈ st.rels ∨ (e.2, e.1) ∈ st.rels then st
  else
    let evs1 := if e.1 ∈ st.nodes then [] else introBlockGen g e.1
    let nodes1 := if e.1 ∈ st.nodes then st.nodes else st.nodes ++ [e.1]
    let evs2 := if e.2 ∈ nodes1 then [] else introBlockTrainTarget g e.1 e.2
    let nodes2 := if e.2 ∈ nodes1 then nodes1 else nodes1 ++ [e.2]
    { evs := st.evs ++ evs1 ++ evs2
        ++ relPieceEvs (g.labelOf e.1 e.2) e.1 e.2 (g.typeOf e.1) ++ [Ev.txt "\n"],
      nodes := nodes2,
      rels := st.rels ++ [(e.1, e.2)] }

/-- Phase B of the generation path: for each graph node in stored order whose
lower-cased name occurs in the lower-cased plots section, fold the edge
processing over `dfs_edges(kg, source=node, depth_limit=fuel)`.  The events
accumulate from `[]`; `completed_nodes` and `completed_rels` continue from
the Phase A state. -/
def phaseBGen (g : KG) (fuel : Nat) (plotsLow : String) (nodes0 : List String)
    (rels0 : List (String × String)) : BState :=
  g.nodes.foldl
    (fun st nd =>
      if strContains plotsLow (strLower nd.name) then
        (dfsEdges (KG.adj g) fuel nd.name).foldl (stepEdgeGen g) st
      else st)
    ⟨[], nodes0, rels0⟩

/-- Phase B of the training path: as `phaseBGen` but with the training edge
step; the caller passes `fuel = g.nodes.length` (no `depth_limit` argument,
networkx defaults to `len(G)`). -/
def phaseBTrain (g : KG) (fuel : Nat) (plotsLow : String) (nodes0 : List String)
    (rels0 : List (String × String)) : BState :=
  g.nodes.foldl
    (fun st nd =>
      if strContains plotsLow (strLower nd.name) then
        (dfsEdges (KG.adj g) fuel nd.name).foldl (stepEdgeTrain g) st
      else st)
    ⟨[], nodes0, rels0⟩

/-- A quest field value: a plain string or a sequence of strings (tasks). -/
inductive QVal where
  | vs (s : String)
  | vl (xs : List String)
deriving DecidableEq

/-- A quest example record: game code, plots, kb records, and the quest
mapping in insertion order. -/
structure QEx where
  game : String
  plots : List String
  kbs : List KB
  quest : List (String × QVal)
deriving DecidableEq

/-- The plots section `f"{PLOTS_KEY}\n{plots_str}"`. -/
def plotsSection (ex : QEx) : String :=
  "### Plots:\n" ++ "\n".intercalate ex.plots

/-- Background events of `create_generation_prompt_formats` (text_kg branch):
Phase A, then, only when `KG_DEPTH > 0`, the `kg_map[input['game']]` lookup
(`none` models the `KeyError` for a missing game) and Phase B with
`depth_limit = KG_DEPTH`. -/
def bgGenEvs (sampler : List (String × String) → Nat → List (String × String))
    (lookup : String → Option KG) (depth : Int) (ex : QEx) : Option (List Ev) :=
  let stA := phaseAGen sampler depth ex.kbs
  if 0 < depth then
    match lookup ex.game with
    | none => none
    | some g =>
      let stB := phaseBGen g depth.toNat (strLower (plotsSection ex)) stA.nodes stA.rels
      some (stA.evs ++ stB.evs)
  else some stA.evs

/-- Composed background text of the generation path, with the header
`f"{BACKGROUND}\n{background}"`. -/
def bgGenStr (sampler : List (String × String) → Nat → List (String × String))
    (lookup : String → Option KG) (depth : Int) (ex : QEx) : Option String :=
  (bgGenEvs sampler lookup depth ex).map (fun evs => "### Background:\n" ++ renderEvs evs)

/-- Background events of `create_training_prompt_formats` (text_kg branch):
Phase A without depth handling, then the unconditional graph lookup and
Phase B without a depth limit (networkx uses `len(G)`).  The `depth`
parameter models the notebook-level `KG_DEPTH` configuration, which this
function never reads. -/
def bgTrainEvs (lookup : String → Option KG) (depth : Int) (ex : QEx) :
    Option (List Ev) :=
  let stA := phaseATrain ex.kbs
  match lookup ex.game with
  | none => none
  | some g =>
    let stB := phaseBTrain g g.nodes.length (strLower (plotsSection ex)) stA.nodes stA.rels
    some (stA.evs ++ stB.evs)

/-- Composed background text of the training path. -/
def bgTrainStr (lookup : String → Option KG) (depth : Int) (ex : QEx) :
    Option String :=
  (bgTrainEvs lookup depth ex).map (fun evs => "### Background:\n" ++ renderEvs evs)

/-- Model of `np.char.capitalize` applied to a list of strings: capitalizes
each element, but raises `TypeError: string operation on non-string array`
on the empty list, because `np.asarray([])` infers a float dtype. -/
def npCharCapitalize (xs : List String) : Option (List String) :=
  match xs with
  | [] => none
  | _ => some (xs.map pyCapitalize)

/-- Rendering of one quest field: `description` is skipped; `tasks` renders
`'\n ' + '\n '.join(np.char.capitalize(v[:-1]))` (failing when the list with
its last element dropped is empty, and when the value is a plain string,
since joining a zero-dimensional numpy array raises); any other field
renders `f'{k.capitalize()}: {v.capitalize()}\n'` (failing when the value is
a list, since lists have no `capitalize`). -/
def renderQuestField (k : String) (v : QVal) : Option String :=
  if k = "description" then some ""
  else if k = "tasks" then
    match v with
    | QVal.vl xs =>
      match npCharCapitalize xs.dropLast with
      | none => none
      | some caps =>
        some (pyCapitalize k ++ ": " ++ ("\n " ++ "\n ".intercalate caps) ++ "\n")
    | QVal.vs _ => none
  else
    match v with
    | QVal.vs s => some (pyCapitalize k ++ ": " ++ pyCapitalize s ++ "\n")
    | QVal.vl _ => none

/-- Quest string: concatenation of the rendered fields in insertion order,
failing at the first field whose rendering raises. -/
def questStr : List (String × QVal) → Option String
  | [] => some ""
  | (k, v) :: rest =>
    match renderQuestField k v with
    | none => none
    | some s => (questStr rest).map (fun t => s ++ t)

/-- The instruction blurb shared by both notebooks. -/
def introBlurb : String := "The quest related to the above information is as follows:"

/-- Model of `create_generation_prompt_formats` (run-tuned-model.ipynb):
returns the pair `(input['text'], input['output'])`, or `none` when the
Python function raises (missing game graph in text_kg mode with
`KG_DEPTH > 0`, or a quest field whose rendering raises). -/
def createGenerationPromptFormats (trainType : String)
    (sampler : List (String × String) → Nat → List (String × String))
    (lookup : String → Option KG) (depth : Int) (ex : QEx) :
    Option (String × String) :=
  let plots := plotsSection ex
  let bg : Option String :=
    if trainType = "text_kg" then bgGenStr sampler lookup depth ex else some ""
  match bg with
  | none => none
  | some background =>
    match questStr ex.quest with
    | none => none
    | some qs =>
      let quest := "### Quest:\n" ++ qs
      let partsP :=
        if trainType = "no_kg" ∨ trainType = "tree_kg" then
          [plots, introBlurb].filter (fun p => p ≠ "")
        else
          [background, plots, introBlurb].filter (fun p => p ≠ "")
      let partsO := [quest, "### End"].filter (fun p => p ≠ "")
      some ("\n\n".intercalate partsP, "\n\n".intercalate partsO)

/-- Model of `create_training_prompt_formats` (finetune-llama2.ipynb):
returns `input['text']`, the single training text joining background, plots,
blurb, quest and end marker. -/
def createTrainingPromptFormats (trainType : String)
    (lookup : String → Option KG) (depth : Int) (ex : QEx) : Option String :=
  let plots := plotsSection ex
  let bg : Option String :=
    if trainType = "text_kg" then bgTrainStr lookup depth ex else some ""
  match bg with
  | none => none
  | some background =>
    match questStr ex.quest with
    | none => none
    | some qs =>
      let quest := "### Quest:\n" ++ qs
      let parts :=
        if trainType = "no_kg" ∨ trainType = "tree_kg" then
          [plots, introBlurb, quest, "### End"].filter (fun p => p ≠ "")
        else
          [background, plots, introBlurb, quest, "### End"].filter (fun p => p ≠ "")
      some ("\n\n".intercalate parts)

/-- Number of occurrences of `needle` as a substring of `hay` (all start
positions counted). -/
def countSub (needle hay : String) : Nat :=
  ((List.range (hay.data.length + 1)).filter
    (fun i => needle.data.isPrefixOf (hay.data.drop i))).length

/-- A deterministic sampler satisfying the `random.sample` contract
(`k` distinct elements drawn from the population when `k ≤ length`). -/
def sTake (l : List (String × String)) (k : Nat) : List (String × String) :=
  l.take k

/-- Concrete graph: a character `A` connected to a location `B`. -/
def g1 : KG :=
  { nodes := [⟨"A", "character", "A"⟩, ⟨"B", "location", "B"⟩],
    edges := [("A", "B", "connected to")] }

/-- Registry containing only game `G`, mapped to `g1`. -/
def lookup1 (s : String) : Option KG := if s = "G" then some g1 else none

/-- Example whose plots mention node `A` and whose kb list is empty. -/
def ex1 : QEx := { game := "G", plots := ["A appears"], kbs := [], quest := [] }

/-- Concrete chain graph `A → B → C → D` (one character, three locations). -/
def gChain : KG :=
  { nodes := [⟨"A", "character", "A"⟩, ⟨"B", "location", "B"⟩,
              ⟨"C", "location", "C"⟩, ⟨"D", "location", "D"⟩],
    edges := [("A", "B", "connected to"), ("B", "C", "connected to"),
              ("C", "D", "connected to")] }

/-- Registry containing only game `G`, mapped to `gChain`. -/
def lookupChain (s : String) : Option KG := if s = "G" then some gChain else none

/-- Example whose plots mention only node `A` of the chain graph. -/
def exChain : QEx := { game := "G", plots := ["A walks"], kbs := [], quest := [] }

/-- Empty graph (no nodes, no edges). -/
def gEmpty : KG := { nodes := [], edges := [] }

/-- Registry containing only game `G`, mapped to the empty graph. -/
def lookupEmpty (s : String) : Option KG := if s = "G" then some gEmpty else none

/-- Example with one kb record holding two relations. -/
def ex3 : QEx :=
  { game := "G", plots := [],
    kbs := [⟨"A", "A", "character", [("connected to", "B"), ("connected to", "C")]⟩],
    quest := [] }

/-- Example whose two kb records describe the pair `(A, B)` in both
directions. -/
def ex5 : QEx :=
  { game := "G", plots := [],
    kbs := [⟨"A", "A", "character", [("connected to", "B")]⟩,
            ⟨"B", "B", "location", [("held by", "A")]⟩],
    quest := [] }

/-- Example listing the same kb entity name twice. -/
def ex6 : QEx :=
  { game := "G", plots := [],
    kbs := [⟨"A", "A", "character", []⟩, ⟨"A", "A", "character", []⟩],
    quest := [] }

/-- Example referencing a game code with a well-formed single-field quest. -/
def ex9 : QEx :=
  { game := "G", plots := ["p"], kbs := [], quest := [("title", QVal.vs "go")] }

/-- A kb record with two relations, used to instantiate theorems. -/
def kbW : KB := ⟨"A", "A", "character", [("connected to", "B"), ("connected to", "C")]⟩

/-- Unordered-pair comparison: `uEqb p q` holds when `p` equals `q` or its
swap (the double check `(e1,e2) in completed_rels or (e2,e1) in completed_rels`). -/
def uEqb (p q : String × String) : Bool := p == q || p == (q.2, q.1)

/-- Reachability within `n` hops from `src` along the adjacency function. -/
inductive ReachWithin (adj : String → List String) (src : String) : Nat → String → Prop
  | refl (n : Nat) : ReachWithin adj src n src
  | step (n : Nat) (u v : String) (hu : ReachWithin adj src n u) (hv : v ∈ adj u) :
      ReachWithin adj src (n + 1) v


/-- Event block emitted by Phase A of the generation path for one kb. -/
def kbBlockGen (sampler : List (String × String) → Nat → List (String × String))
    (depth : Int) (kb : KB) : List Ev :=
  [Ev.intro kb.name (kb.name ++ " is a " ++ kb.etype ++ ". ")]
  ++ (if 0 < depth then
        if kb.name ≠ kb.desc then [Ev.txt (kb.name ++ " is " ++ kb.desc ++ ". ")] else []
      else [])
  ++ (pickedRels sampler depth kb).map (relEvGen kb.name)
  ++ [Ev.txt "\n"]

/-- Event block emitted by Phase A of the training path for one kb. -/
def kbBlockTrain (kb : KB) : List Ev :=
  [Ev.intro kb.name (kb.name ++ " is a " ++ kb.etype ++ ". ")]
  ++ (if kb.name ≠ kb.desc then [Ev.txt (kb.name ++ " is " ++ kb.desc ++ ". ")] else [])
  ++ kb.relations.map (relEvTrain kb.name)
  ++ [Ev.txt "\n"]

/-- Invariant of Phase B edge processing for relation-pair dedup: every
emitted relation-sentence pair is recorded in `completed_rels`, the emitted
pairs are pairwise distinct as unordered pairs, and they stay distinct from
a fixed base list of pre-recorded pairs (the Phase A pairs). -/
def RelInv (base : List (String × String)) (st : BState) : Prop :=
  (∀ p ∈ relTags st.evs, p ∈ st.rels) ∧
  List.Pairwise (fun p q => uEqb p q = false) (relTags st.evs) ∧
  (∀ q ∈ base, q ∈ st.rels) ∧
  (∀ p ∈ relTags st.evs, ∀ q ∈ base, uEqb p q = false)

/-- Invariant of Phase B edge processing for introduction dedup: the emitted
introduction tags are distinct, each is recorded in `completed_nodes`, a
fixed base list of pre-recorded nodes (the Phase A entity names) stays
recorded, and no emitted tag comes from the base list. -/
def IntroInv (baseN : List String) (st : BState) : Prop :=
  (introTags st.evs).Nodup ∧
  (∀ e ∈ introTags st.evs, e ∈ st.nodes) ∧
  (∀ n ∈ baseN, n ∈ st.nodes) ∧
  (∀ e ∈ introTags st.evs, e ∉ baseN)

theorem relTags_append (a b : List Ev) : relTags (a ++ b) = relTags a ++ relTags b := by
  induction a with
  | nil => rfl
  | cons x t ih => cases x <;> simp [relTags, ih]

theorem introTags_append (a b : List Ev) :
    introTags (a ++ b) = introTags a ++ introTags b := by
  induction a with
  | nil => rfl
  | cons x t ih => cases x <;> simp [introTags, ih]

theorem relTags_map_relEvGen (n : String) (l : List (String × String)) :
    relTags (l.map (relEvGen n)) = l.map (fun r => (n, r.2)) := by
  induction l with
  | nil => rfl
  | cons x t ih => simp [relEvGen, relTags, ih]

theorem relTags_map_relEvTrain (n : String) (l : List (String × String)) :
    relTags (l.map (relEvTrain n)) = l.map (fun r => (n, r.2)) := by
  induction l with
  | nil => rfl
  | cons x t ih => simp [relEvTrain, relTags, ih]

theorem introTags_map_relEvGen (n : String) (l : List (String × String)) :
    introTags (l.map (relEvGen n)) = [] := by
  induction l with
  | nil => rfl
  | cons x t ih => simp [relEvGen, introTags, ih]

theorem introTags_map_relEvTrain (n : String) (l : List (String × String)) :
    introTags (l.map (relEvTrain n)) = [] := by
  induction l with
  | nil => rfl
  | cons x t ih => simp [relEvTrain, introTags, ih]

theorem relTags_relPieceEvs (rel e1 e2 t : String) :
    relTags (relPieceEvs rel e1 e2 t) = [] ∨
    relTags (relPieceEvs rel e1 e2 t) = [(e1, e2)] := by
  unfold relPieceEvs
  split_ifs <;> simp_all [relTags, relTags_append]

theorem introTags_relPieceEvs (rel e1 e2 t : String) :
    introTags (relPieceEvs rel e1 e2 t) = [] := by
  unfold relPieceEvs
  split_ifs <;> simp_all [introTags, introTags_append]

theorem relTags_introBlockGen (g : KG) (n : String) :
    relTags (introBlockGen g n) = [] := by
  unfold introBlockGen
  split_ifs <;> simp [relTags, relTags_append]

theorem introTags_introBlockGen (g : KG) (n : String) :
    introTags (introBlockGen g n) = [n] := by
  unfold introBlockGen
  split_ifs <;> simp [introTags, introTags_append]

theorem relTags_introBlockTrainTarget (g : KG) (src tgt : String) :
    relTags (introBlockTrainTarget g src tgt) = [] := by
  unfold introBlockTrainTarget
  split_ifs <;> simp [relTags, relTags_append]

theorem introTags_introBlockTrainTarget (g : KG) (src tgt : String) :
    introTags (introBlockTrainTarget g src tgt) = [tgt] := by
  unfold introBlockTrainTarget
  split_ifs <;> simp [introTags, introTags_append]

/-- A fold preserves any invariant preserved by its step function. -/
theorem foldl_preserve {α β : Type} (P : α → Prop) (f : α → β → α)
    (hf : ∀ a b, P a → P (f a b)) :
    ∀ (l : List β) (a : α), P a → P (l.foldl f a) := by
  intro l
  induction l with
  | nil => intro a h; exact h
  | cons x t ih => intro a h; exact ih (f a x) (hf a x h)

theorem ReachWithin.mono {adj : String → List String} {src : String} {m : Nat}
    {x : String} (h : ReachWithin adj src m x) :
    ∀ {n : Nat}, m ≤ n → ReachWithin adj src n x := by
  induction h with
  | refl k => intro n _; exact ReachWithin.refl n
  | step k u v hu hv ih =>
    intro n hn
    cases n with
    | zero => omega
    | succ n2 => exact ReachWithin.step n2 u v (ih (by omega)) hv

/-- Every edge yielded by the depth-limited DFS core from a node already
within `K - fuel` hops of the source has its target within `K` hops. -/
theorem dfsVisit_reach (adj : String → List String) (src : String) (K : Nat) :
    ∀ fuel (u : String) (vis : List String),
      1 ≤ fuel → fuel ≤ K → ReachWithin adj src (K - fuel) u →
      ∀ ab ∈ (dfsVisit adj fuel u vis).1, ReachWithin adj src K ab.2 := by
  intro fuel
  induction fuel with
  | zero => intro u vis h1 hK hu; exact absurd h1 (by omega)
  | succ f IH =>
    intro u vis h1 hK hu
    have haux : ∀ (cs : List String), (∀ c ∈ cs, c ∈ adj u) →
        ∀ (acc : List (String × String) × List String),
          (∀ ab ∈ acc.1, ReachWithin adj src K ab.2) →
          ∀ ab ∈ (cs.foldl
            (fun acc c =>
              if c ∈ acc.2 then acc
              else if 0 < f then
                let r1 := dfsVisit adj f c (c :: acc.2)
                (acc.1 ++ (u, c) :: r1.1, r1.2)
              else (acc.1 ++ [(u, c)], c :: acc.2)) acc).1,
          ReachWithin adj src K ab.2 := by
      intro cs
      induction cs with
      | nil => intro _ acc hacc ab hab; exact hacc ab hab
      | cons c rest ihc =>
        intro hcs acc hacc
        simp only [List.foldl_cons]
        apply ihc (fun x hx => hcs x (List.mem_cons_of_mem c hx))
        by_cases hv : c ∈ acc.2
        · simpa [hv] using hacc
        · have hcadj : c ∈ adj u := hcs c (List.mem_cons_self c rest)
          have hrc : ReachWithin adj src K c := by
            have hstep := ReachWithin.step (K - (f + 1)) u c hu hcadj
            exact hstep.mono (by omega)
          by_cases hf : 0 < f
          · intro ab hab
            simp only [if_neg hv, if_pos hf] at hab
            rcases List.mem_append.mp hab with h | h
            · exact hacc ab h
            · rcases List.mem_cons.mp h with h | h
              · subst h; exact hrc
              · refine IH c (c :: acc.2) (by omega) (by omega) ?_ ab h
                have hstep := ReachWithin.step (K - (f + 1)) u c hu hcadj
                have heq : K - (f + 1) + 1 = K - f := by omega
                rw [heq] at hstep
                exact hstep
          · intro ab hab
            simp only [if_neg hv, if_neg hf] at hab
            rcases List.mem_append.mp hab with h | h
            · exact hacc ab h
            · rcases List.mem_cons.mp h with h | h
              · subst h; exact hrc
              · simp at h
    intro ab hab
    simp only [dfsVisit] at hab
    exact haux (adj u) (fun c hc => hc) ([], vis) (by intro ab hab; simp at hab) ab hab

/-- Every edge yielded by `dfs_edges(G, source, depth_limit=K)` has its
target within `K` hops of the source. -/
theorem dfsEdges_reach (adj : String → List String) (src : String) (K : Nat)
    (hK : 1 ≤ K) :
    ∀ ab ∈ dfsEdges adj K src, ReachWithin adj src K ab.2 := by
  intro ab hab
  have h0 : ReachWithin adj src (K - K) src := ReachWithin.refl (K - K)
  exact dfsVisit_reach adj src K K src [src] hK (Nat.le_refl K) h0 ab hab

/-- Closed form of the Phase A fold of the generation path. -/
theorem phaseAGen_fold_spec
    (sampler : List (String × String) → Nat → List (String × String))
    (depth : Int) :
    ∀ (kbs : List KB) (st : BState),
      kbs.foldl (stepKbGen sampler depth) st =
        ⟨st.evs ++ (kbs.map (kbBlockGen sampler depth)).flatten,
         st.nodes ++ kbs.map KB.name,
         st.rels ++ (kbs.map
           (fun kb => (pickedRels sampler depth kb).map (fun r => (kb.name, r.2)))).flatten⟩ := by
  intro kbs
  induction kbs with
  | nil => intro st; simp
  | cons kb rest ih =>
    intro st
    rw [List.foldl_cons, ih]
    simp [stepKbGen, kbBlockGen, List.append_assoc]

/-- Closed form of the Phase A fold of the training path. -/
theorem phaseATrain_fold_spec :
    ∀ (kbs : List KB) (st : BState),
      kbs.foldl stepKbTrain st =
        ⟨st.evs ++ (kbs.map kbBlockTrain).flatten,
         st.nodes ++ kbs.map KB.name,
         st.rels ++ (kbs.map
           (fun kb => kb.relations.map (fun r => (kb.name, r.2)))).flatten⟩ := by
  intro kbs
  induction kbs with
  | nil => intro st; simp
  | cons kb rest ih =>
    intro st
    rw [List.foldl_cons, ih]
    simp [stepKbTrain, kbBlockTrain, List.append_assoc]

theorem introTags_kbBlockGen
    (sampler : List (String × String) → Nat → List (String × String))
    (depth : Int) (kb : KB) :
    introTags (kbBlockGen sampler depth kb) = [kb.name] := by
  unfold kbBlockGen
  split_ifs <;> simp [introTags, introTags_append, introTags_map_relEvGen]

theorem introTags_kbBlockTrain (kb : KB) :
    introTags (kbBlockTrain kb) = [kb.name] := by
  unfold kbBlockTrain
  split_ifs <;> simp [introTags, introTags_append, introTags_map_relEvTrain]

theorem relTags_kbBlockGen
    (sampler : List (String × String) → Nat → List (String × String))
    (depth : Int) (kb : KB) :
    relTags (kbBlockGen sampler depth kb) =
      (pickedRels sampler depth kb).map (fun r => (kb.name, r.2)) := by
  unfold kbBlockGen
  split_ifs <;> simp [relTags, relTags_append, relTags_map_relEvGen]

theorem relTags_kbBlockTrain (kb : KB) :
    relTags (kbBlockTrain kb) = kb.relations.map (fun r => (kb.name, r.2)) := by
  unfold kbBlockTrain
  split_ifs <;> simp [relTags, relTags_append, relTags_map_relEvTrain]

theorem introTags_phaseAGen
    (sampler : List (String × String) → Nat → List (String × String))
    (depth : Int) (kbs : List KB) :
    introTags (phaseAGen sampler depth kbs).evs = kbs.map KB.name := by
  unfold phaseAGen
  rw [phaseAGen_fold_spec]
  simp
  induction kbs with
  | nil => rfl
  | cons kb rest ih =>
    simp only [introTags, List.map_cons, List.flatten_cons, introTags_append,
      introTags_kbBlockGen, List.nil_append] at *
    split_ifs <;> simp [introTags, introTags_append, introTags_map_relEvGen, ih]

theorem introTags_phaseATrain (kbs : List KB) :
    introTags (phaseATrain kbs).evs = kbs.map KB.name := by
  unfold phaseATrain
  rw [phaseATrain_fold_spec]
  induction kbs with
  | nil => rfl
  | cons kb rest ih =>
    simp only [introTags, List.map_cons, List.flatten_cons, introTags_append,
      introTags_kbBlockTrain, List.nil_append] at *
    split_ifs <;> simp [introTags, introTags_append, introTags_map_relEvTrain, ih]

/-- Claim C1 (code_bug evaluation): in the training path's Phase B, for the
traversed edge `("A", "B")` with `B` (a location) not yet completed, the
emitted introduction sentence is `"A is a location. "` — it names the edge
source `A` while using `B`'s type — instead of the claimed
`"B is a location. "`; the composed background shows the wrong sentence and
never contains `"B is a location"`. -/
theorem c1_training_target_intro_names_source :
    bgTrainStr lookup1 2 ex1 =
      some "### Background:\nA is a character. \nA is a location. \nA is connected to B. \n"
    ∧ strContains ((bgTrainStr lookup1 2 ex1).getD "") "B is a location" = false := by
  constructor
  · rfl
  · rfl

/-- Claim C3 (counterexample): the training path performs no relation
sampling at all — for a kb with two relations (and the notebook-level
`KG_DEPTH = 2`, for which the claim demands a sample of size
`min(2 - 1, 2) = 1`), both relation sentences are emitted. -/
theorem c3_training_emits_all_relations :
    (bgTrainEvs lookupEmpty 2 ex3).map relTags = some [("A", "B"), ("A", "C")] := by
  rfl

/-- Claim C4 (counterexample): the training path runs the Phase B traversal
unconditionally and unboundedly.  At depth `0` (where the claim asserts the
output contains no entities beyond `example.kbs`, here empty), the composed
background still introduces and relates the whole chain reached from the
plot-matched node `A`. -/
theorem c4_training_traversal_ignores_depth :
    bgTrainStr lookupChain 0 exChain =
      some ("### Background:\nA is a character. \nA is a location. \nA is connected to B. \n"
        ++ "B is a location. \nB is connected to C. \nC is a location. \nC is connected to D. \n") := by
  rfl

/-- Claim C5 (counterexample): Phase A performs no `completed_rels` lookup,
so an example whose kb records describe the pair `(A, B)` in both directions
produces two relation sentences for the same unordered pair. -/
theorem c5_phaseA_duplicates_pair :
    (bgGenEvs sTake (fun _ => none) 0 ex5).map relTags = some [("A", "B"), ("B", "A")]
    ∧ uEqb ("A", "B") ("B", "A") = true := by
  constructor
  · rfl
  · rfl

/-- Claim C6 (counterexample): Phase A performs no `completed_nodes` lookup,
so an example listing the same kb entity twice emits the introduction
`"A is a "` twice in the composed background. -/
theorem c6_duplicate_kb_intro_twice :
    countSub "A is a " ((bgGenStr sTake lookupEmpty 1 ex6).getD "") = 2 := by
  rfl

/-- Claim C9 (counterexample): in the generation path the registry lookup
`kg_map[input['game']]` sits inside the `KG_DEPTH > 0` branch, so with
`depth = 0` and a registry with no entry at all the composition succeeds
instead of failing. -/
theorem c9_missing_game_depth_zero_succeeds :
    (createGenerationPromptFormats "text_kg" sTake (fun _ => none) 0 ex9).isSome = true := by
  rfl

/-- Claim C8 (counterexample): a `tasks` field whose value is the empty list
makes rendering fail (`np.char.capitalize` raises on the empty array
because `np.asarray([])` has a non-string dtype) instead of rendering an
empty task block. -/
theorem c8_empty_tasks_raises :
    questStr [("tasks", QVal.vl [])] = none := by
  rfl

/-- Claim C10 (counterexample): with exactly one task, `v[:-1]` is the empty
list and `np.char.capitalize([])` raises, so rendering fails rather than
producing a `"Tasks: "` line with no task text. -/
theorem c10_single_task_raises :
    questStr [("tasks", QVal.vl ["report"])] = none := by
  rfl

/-- Claim C10 (amended): for every example whose quest contains a `tasks`
field with exactly one task, quest rendering fails with a
TypeError-equivalent (the sole task is dropped by `v[:-1]` and
`np.char.capitalize` rejects the resulting empty array); no quest block is
produced. -/
theorem c10_single_task_none (t : String) (rest : List (String × QVal)) :
    questStr (("tasks", QVal.vl [t]) :: rest) = none := by
  rfl

/-- Claim C8 (amended): quest rendering skips the field named
`description`; a `tasks` field (provided at least two tasks, i.e. the
drop-last list is non-empty — otherwise rendering fails, see the
counterexample) renders every task but the last, each capitalized on its own
indented line under the capitalized field name; every other field renders as
the capitalized field name, a colon, and the capitalized value followed by a
newline; fields are processed in insertion order (cons-first). -/
theorem c8_quest_rendering (v : QVal) (k s : String) (xs : List String)
    (rest : List (String × QVal))
    (hk1 : k ≠ "description") (hk2 : k ≠ "tasks") (hxs : xs.dropLast ≠ []) :
    questStr (("description", v) :: rest) = questStr rest ∧
    questStr (("tasks", QVal.vl xs) :: rest) =
      (questStr rest).map (fun t =>
        pyCapitalize "tasks" ++ ": "
          ++ ("\n " ++ "\n ".intercalate (xs.dropLast.map pyCapitalize)) ++ "\n" ++ t) ∧
    questStr ((k, QVal.vs s) :: rest) =
      (questStr rest).map (fun t =>
        pyCapitalize k ++ ": " ++ pyCapitalize s ++ "\n" ++ t) := by
  refine ⟨?_, ?_, ?_⟩
  · have h : renderQuestField "description" v = some "" := by simp [renderQuestField]
    simp only [questStr, h]
    cases questStr rest with
    | none => rfl
    | some t => cases t with | mk l => rfl
  · have h : renderQuestField "tasks" (QVal.vl xs) =
        some (pyCapitalize "tasks" ++ ": "
          ++ ("\n " ++ "\n ".intercalate (xs.dropLast.map pyCapitalize)) ++ "\n") := by
      cases hdl : xs.dropLast with
      | nil => exact absurd hdl hxs
      | cons a l => simp [renderQuestField, npCharCapitalize, hdl]
    simp only [questStr, h]
  · have h : renderQuestField k (QVal.vs s) =
        some (pyCapitalize k ++ ": " ++ pyCapitalize s ++ "\n") := by
      simp [renderQuestField, hk1, hk2]
    simp only [questStr, h]

/-- Claim C8 (witness): the rendering equations instantiated at a concrete
quest with a description, a two-element task list, and a title field. -/
theorem c8_quest_rendering_witness :
    questStr [("description", QVal.vs "d")] = questStr [] ∧
    questStr [("tasks", QVal.vl ["find x", "KILL y"])] =
      (questStr []).map (fun t =>
        pyCapitalize "tasks" ++ ": "
          ++ ("\n " ++ "\n ".intercalate (["find x", "KILL y"].dropLast.map pyCapitalize))
          ++ "\n" ++ t) ∧
    questStr [("title", QVal.vs "go")] =
      (questStr []).map (fun t =>
        pyCapitalize "title" ++ ": " ++ pyCapitalize "go" ++ "\n" ++ t) :=
  c8_quest_rendering (QVal.vs "d") "title" "go" ["find x", "KILL y"] []
    (by decide) (by decide) (by decide)

/-- Claim C9 (amended): with a missing game entry, background composition in
text_kg mode fails (a `KeyError`, modelled as `none`) in the generation path
exactly when `depth > 0` — for `depth ≤ 0` the registry is never consulted
and composition succeeds — and fails in the training path for every depth. -/
theorem c9_missing_game_failure
    (sampler : List (String × String) → Nat → List (String × String))
    (lookup : String → Option KG) (depth : Int) (ex : QEx)
    (h : lookup ex.game = none) :
    (0 < depth → bgGenStr sampler lookup depth ex = none) ∧
    (depth ≤ 0 → (bgGenStr sampler lookup depth ex).isSome = true) ∧
    bgTrainStr lookup depth ex = none := by
  refine ⟨?_, ?_, ?_⟩
  · intro hd
    simp [bgGenStr, bgGenEvs, hd, h]
  · intro hd
    have hnd : ¬ 0 < depth := by omega
    simp [bgGenStr, bgGenEvs, hnd]
  · simp [bgTrainStr, bgTrainEvs, h]

/-- Claim C9 (witness): the failure conditions instantiated at depth `1`
with the empty registry. -/
theorem c9_missing_game_failure_witness :
    (0 < (1 : Int) → bgGenStr sTake (fun _ => none) 1 ex9 = none) ∧
    ((1 : Int) ≤ 0 → (bgGenStr sTake (fun _ => none) 1 ex9).isSome = true) ∧
    bgTrainStr (fun _ => none) 1 ex9 = none :=
  c9_missing_game_failure sTake (fun _ => none) 1 ex9 rfl

/-- Claim C2 (confirmed): the Phase B relation sentence is determined by the
edge label — `connected to` emits `e1 is connected to e2`; `present in`
emits the self-referential `e2 is present in e2` when `type(e1)` is
`location` and `e1 is present in e2` otherwise; `held by` emits
`e2 is held by e1` when `type(e1)` is `character` and `e1 is held by e2`
otherwise; any other label emits no relation sentence; and both paths append
a trailing newline event after every processed (non-skipped) edge. -/
theorem c2_relation_dispatch (e1 e2 t r : String) (g : KG) (st : BState)
    (hskip : ¬ ((e1, e2) ∈ st.rels ∨ (e2, e1) ∈ st.rels)) :
    relPieceEvs "connected to" e1 e2 t =
      [Ev.rel e1 e2 (e1 ++ " is connected to " ++ e2 ++ ". ")] ∧
    (t = "location" → relPieceEvs "present in" e1 e2 t =
      [Ev.rel e1 e2 (e2 ++ " is present in " ++ e2 ++ ". ")]) ∧
    (t ≠ "location" → relPieceEvs "present in" e1 e2 t =
      [Ev.rel e1 e2 (e1 ++ " is present in " ++ e2 ++ ". ")]) ∧
    (t = "character" → relPieceEvs "held by" e1 e2 t =
      [Ev.rel e1 e2 (e2 ++ " is held by " ++ e1 ++ ". ")]) ∧
    (t ≠ "character" → relPieceEvs "held by" e1 e2 t =
      [Ev.rel e1 e2 (e1 ++ " is held by " ++ e2 ++ ". ")]) ∧
    (r ≠ "connected to" → r ≠ "present in" → r ≠ "held by" →
      relPieceEvs r e1 e2 t = []) ∧
    (∃ pre, (stepEdgeGen g st (e1, e2)).evs =
      st.evs ++ pre ++ relPieceEvs (g.labelOf e1 e2) e1 e2 (g.typeOf e1)
        ++ [Ev.txt "\n"]) ∧
    (∃ pre, (stepEdgeTrain g st (e1, e2)).evs =
      st.evs ++ pre ++ relPieceEvs (g.labelOf e1 e2) e1 e2 (g.typeOf e1)
        ++ [Ev.txt "\n"]) := by
  refine ⟨?_, ?_, ?_, ?_, ?_, ?_, ?_, ?_⟩
  · simp [relPieceEvs]
  · intro ht; simp [relPieceEvs, ht]
  · intro ht; simp [relPieceEvs, ht]
  · intro ht; simp [relPieceEvs, ht]
  · intro ht; simp [relPieceEvs, ht]
  · intro h1 h2 h3; simp [relPieceEvs, h1, h2, h3]
  · refine ⟨(if e1 ∈ st.nodes then [] else introBlockGen g e1)
      ++ (if e2 ∈ (if e1 ∈ st.nodes then st.nodes else st.nodes ++ [e1]) then []
          else introBlockGen g e2), ?_⟩
    simp [stepEdgeGen, hskip, List.append_assoc]
  · refine ⟨(if e1 ∈ st.nodes then [] else introBlockGen g e1)
      ++ (if e2 ∈ (if e1 ∈ st.nodes then st.nodes else st.nodes ++ [e1]) then []
          else introBlockTrainTarget g e1 e2), ?_⟩
    simp [stepEdgeTrain, hskip, List.append_assoc]

/-- Claim C2 (witness): dispatch and newline behavior at a concrete edge of
`g1` processed from the empty state. -/
theorem c2_relation_dispatch_witness :
    relPieceEvs "connected to" "A" "B" "location" =
      [Ev.rel "A" "B" ("A" ++ " is connected to " ++ "B" ++ ". ")] ∧
    (∃ pre, (stepEdgeGen g1 ⟨[], [], []⟩ ("A", "B")).evs =
      (⟨[], [], []⟩ : BState).evs ++ pre
        ++ relPieceEvs (g1.labelOf "A" "B") "A" "B" (g1.typeOf "A")
        ++ [Ev.txt "\n"]) := by
  have h := c2_relation_dispatch "A" "B" "location" "x" g1 ⟨[], [], []⟩ (by decide)
  exact ⟨h.1, h.2.2.2.2.2.2.1⟩

/-- Claim C3 (amended, generation path): in Phase A of
`create_generation_prompt_formats`, for every `depth > 0` the emitted
relations are the sampler's draw of exactly `min(depth - 1, len(relations))`
relations without replacement from `kb.relations`, and for `depth ≤ 0` all
of `kb.relations` are emitted unchanged in their original order; the
training path has no sampling (see the counterexample). -/
theorem c3_sampling_generation_path
    (sampler : List (String × String) → Nat → List (String × String))
    (depth : Int) (st : BState) (kb : KB)
    (hs : ∀ k2, k2 ≤ kb.relations.length →
      (sampler kb.relations k2).length = k2 ∧
      (sampler kb.relations k2).Subperm kb.relations) :
    (0 < depth →
      pickedRels sampler depth kb = sampler kb.relations (sampleSize depth kb.relations) ∧
      (pickedRels sampler depth kb).length = min (depth - 1).toNat kb.relations.length ∧
      (pickedRels sampler depth kb).Subperm kb.relations ∧
      (stepKbGen sampler depth st kb).evs =
        st.evs ++ [Ev.intro kb.name (kb.name ++ " is a " ++ kb.etype ++ ". ")]
          ++ (if kb.name ≠ kb.desc then [Ev.txt (kb.name ++ " is " ++ kb.desc ++ ". ")] else [])
          ++ (pickedRels sampler depth kb).map (relEvGen kb.name) ++ [Ev.txt "\n"]) ∧
    (depth ≤ 0 →
      pickedRels sampler depth kb = kb.relations ∧
      (stepKbGen sampler depth st kb).evs =
        st.evs ++ [Ev.intro kb.name (kb.name ++ " is a " ++ kb.etype ++ ". ")]
          ++ kb.relations.map (relEvGen kb.name) ++ [Ev.txt "\n"]) := by
  constructor
  · intro hd
    have hsz : sampleSize depth kb.relations ≤ kb.relations.length := by
      unfold sampleSize; omega
    have hkey : sampleSize depth kb.relations = min (depth - 1).toNat kb.relations.length := by
      unfold sampleSize; omega
    have hp : pickedRels sampler depth kb =
        sampler kb.relations (sampleSize depth kb.relations) := by
      simp [pickedRels, hd]
    refine ⟨hp, ?_, ?_, ?_⟩
    · rw [hp, (hs _ hsz).1, hkey]
    · rw [hp]; exact (hs _ hsz).2
    · simp [stepKbGen, pickedRels, hd, List.append_assoc]
  · intro hd
    have hnd : ¬ 0 < depth := by omega
    refine ⟨by simp [pickedRels, hnd], ?_⟩
    simp [stepKbGen, pickedRels, hnd, List.append_assoc]

/-- Claim C3 (witness): the sampling size and subpermutation facts at depth
`2` on a kb with two relations, with the take-prefix sampler. -/
theorem c3_sampling_generation_path_witness :
    (pickedRels sTake 2 kbW).length = min ((2 : Int) - 1).toNat kbW.relations.length ∧
    (pickedRels sTake 2 kbW).Subperm kbW.relations := by
  have hs : ∀ k2, k2 ≤ kbW.relations.length →
      (sTake kbW.relations k2).length = k2 ∧
      (sTake kbW.relations k2).Subperm kbW.relations := by
    intro k2 hk2
    constructor
    · simp [sTake, List.length_take]
      omega
    · exact (List.take_sublist k2 kbW.relations).subperm
  have h := (c3_sampling_generation_path sTake 2 ⟨[], [], []⟩ kbW hs).1 (by decide)
  exact ⟨h.2.1, h.2.2.1⟩

theorem pickedRels_congr (s1 s2 : List (String × String) → Nat → List (String × String))
    (depth : Int) (kb : KB)
    (h : s1 kb.relations (sampleSize depth kb.relations) =
      s2 kb.relations (sampleSize depth kb.relations)) :
    pickedRels s1 depth kb = pickedRels s2 depth kb := by
  unfold pickedRels
  split_ifs <;> simp [h]

theorem stepKbGen_congr (s1 s2 : List (String × String) → Nat → List (String × String))
    (depth : Int) (st : BState) (kb : KB)
    (h : s1 kb.relations (sampleSize depth kb.relations) =
      s2 kb.relations (sampleSize depth kb.relations)) :
    stepKbGen s1 depth st kb = stepKbGen s2 depth st kb := by
  unfold stepKbGen
  rw [pickedRels_congr s1 s2 depth kb h]

theorem phaseAGen_congr (s1 s2 : List (String × String) → Nat → List (String × String))
    (depth : Int) :
    ∀ (kbs : List KB) (st : BState),
      (∀ kb ∈ kbs, s1 kb.relations (sampleSize depth kb.relations) =
        s2 kb.relations (sampleSize depth kb.relations)) →
      kbs.foldl (stepKbGen s1 depth) st = kbs.foldl (stepKbGen s2 depth) st := by
  intro kbs
  induction kbs with
  | nil => intro st _; rfl
  | cons kb rest ih =>
    intro st h
    simp only [List.foldl_cons]
    rw [stepKbGen_congr s1 s2 depth st kb (h kb (List.mem_cons_self kb rest))]
    exact ih _ (fun x hx => h x (List.mem_cons_of_mem kb hx))

/-- Claim C7 (confirmed): the composers are pure functions of their inputs,
with Phase A's relation sampling as the only source of non-determinism —
two samplers that agree on every call the composer makes (one call per kb,
at `kb.relations` and the computed sample size) produce byte-identical
prompt output, and the training composer (which draws no randomness at all)
is trivially deterministic. -/
theorem c7_sampler_congruence (trainType : String)
    (s1 s2 : List (String × String) → Nat → List (String × String))
    (lookup : String → Option KG) (depth : Int) (ex : QEx)
    (h : ∀ kb ∈ ex.kbs, s1 kb.relations (sampleSize depth kb.relations) =
      s2 kb.relations (sampleSize depth kb.relations)) :
    createGenerationPromptFormats trainType s1 lookup depth ex =
      createGenerationPromptFormats trainType s2 lookup depth ex ∧
    createTrainingPromptFormats trainType lookup depth ex =
      createTrainingPromptFormats trainType lookup depth ex := by
  have hA : phaseAGen s1 depth ex.kbs = phaseAGen s2 depth ex.kbs := by
    unfold phaseAGen
    exact phaseAGen_congr s1 s2 depth ex.kbs ⟨[], [], []⟩ h
  have hEvs : bgGenEvs s1 lookup depth ex = bgGenEvs s2 lookup depth ex := by
    simp [bgGenEvs, hA]
  constructor
  · simp [createGenerationPromptFormats, bgGenStr, hEvs]
  · rfl

/-- Claim C7 (witness): two syntactically distinct samplers that agree on
the composer's calls yield identical outputs on a concrete example. -/
theorem c7_sampler_congruence_witness :
    createGenerationPromptFormats "text_kg" sTake (fun _ => none) 0 ex3 =
      createGenerationPromptFormats "text_kg" (fun l k => sTake l k) (fun _ => none) 0 ex3 ∧
    createTrainingPromptFormats "text_kg" (fun _ => none) 0 ex3 =
      createTrainingPromptFormats "text_kg" (fun _ => none) 0 ex3 :=
  c7_sampler_congruence "text_kg" sTake (fun l k => sTake l k) (fun _ => none) 0 ex3
    (fun _ _ => rfl)

/-- Claim C4 (amended, generation path): Phase B runs exactly when
`depth > 0` — for `depth ≤ 0` the registry is never consulted and the
background consists exactly of the `example.kbs` blocks with their full,
unsampled relation lists (and no description sentences, which sit inside the
`depth > 0` branch); for `depth > 0` the composition appends the Phase B
events obtained by traversing `dfs_edges` with `depth_limit = depth`, and
every traversed edge's target lies within `depth` hops of its source.  The
training path ignores the depth entirely (see the counterexample). -/
theorem c4_depth_gating_generation_path
    (sampler : List (String × String) → Nat → List (String × String))
    (l1 l2 : String → Option KG) (ex : QEx) (depth : Int)
    (g : KG) (src : String) (K : Nat) (hK : 1 ≤ K) :
    (depth ≤ 0 → bgGenEvs sampler l1 depth ex = bgGenEvs sampler l2 depth ex) ∧
    (depth ≤ 0 → bgGenEvs sampler l1 depth ex =
      some ((ex.kbs.map (fun kb =>
        [Ev.intro kb.name (kb.name ++ " is a " ++ kb.etype ++ ". ")]
          ++ kb.relations.map (relEvGen kb.name) ++ [Ev.txt "\n"])).flatten)) ∧
    (0 < depth → ∀ g2, l1 ex.game = some g2 →
      bgGenEvs sampler l1 depth ex =
        some ((phaseAGen sampler depth ex.kbs).evs ++
          (phaseBGen g2 depth.toNat (strLower (plotsSection ex))
            (phaseAGen sampler depth ex.kbs).nodes
            (phaseAGen sampler depth ex.kbs).rels).evs)) ∧
    (∀ ab ∈ dfsEdges (KG.adj g) K src, ReachWithin (KG.adj g) src K ab.2) := by
  refine ⟨?_, ?_, ?_, ?_⟩
  · intro hd
    have hnd : ¬ 0 < depth := by omega
    simp [bgGenEvs, hnd]
  · intro hd
    have hnd : ¬ 0 < depth := by omega
    have hfun : kbBlockGen sampler depth = fun kb =>
        [Ev.intro kb.name (kb.name ++ " is a " ++ kb.etype ++ ". ")]
          ++ kb.relations.map (relEvGen kb.name) ++ [Ev.txt "\n"] := by
      funext kb
      simp [kbBlockGen, pickedRels, hnd]
    simp [bgGenEvs, hnd, phaseAGen, phaseAGen_fold_spec, hfun]
  · intro hd g2 hg2
    simp [bgGenEvs, hd, hg2]
  · exact dfsEdges_reach (KG.adj g) src K hK

/-- Claim C4 (witness): the depth-zero clauses at a concrete example with
two different registries, and the traversal bound on the chain graph at
depth limit 2. -/
theorem c4_depth_gating_generation_path_witness :
    ((0 : Int) ≤ 0 → bgGenEvs sTake lookup1 0 ex1 = bgGenEvs sTake lookupEmpty 0 ex1) ∧
    ((0 : Int) ≤ 0 → bgGenEvs sTake lookup1 0 ex1 =
      some ((ex1.kbs.map (fun kb =>
        [Ev.intro kb.name (kb.name ++ " is a " ++ kb.etype ++ ". ")]
          ++ kb.relations.map (relEvGen kb.name) ++ [Ev.txt "\n"])).flatten)) ∧
    (0 < (0 : Int) → ∀ g2, lookup1 ex1.game = some g2 →
      bgGenEvs sTake lookup1 0 ex1 =
        some ((phaseAGen sTake 0 ex1.kbs).evs ++
          (phaseBGen g2 (0 : Int).toNat (strLower (plotsSection ex1))
            (phaseAGen sTake 0 ex1.kbs).nodes
            (phaseAGen sTake 0 ex1.kbs).rels).evs)) ∧
    (∀ ab ∈ dfsEdges (KG.adj gChain) 2 "A", ReachWithin (KG.adj gChain) "A" 2 ab.2) :=
  c4_depth_gating_generation_path sTake lookup1 lookupEmpty ex1 0 gChain "A" 2 (by decide)

theorem stepEdgeGen_skipped (g : KG) (st : BState) (e : String × String)
    (h : (e.1, e.2) ∈ st.rels ∨ (e.2, e.1) ∈ st.rels) :
    stepEdgeGen g st e = st := by
  simp [stepEdgeGen, h]

theorem stepEdgeTrain_skipped (g : KG) (st : BState) (e : String × String)
    (h : (e.1, e.2) ∈ st.rels ∨ (e.2, e.1) ∈ st.rels) :
    stepEdgeTrain g st e = st := by
  simp [stepEdgeTrain, h]

theorem stepEdgeGen_rel_preserve (g : KG) (base : List (String × String))
    (st : BState) (e : String × String) (hst : RelInv base st) :
    RelInv base (stepEdgeGen g st e) := by
  obtain ⟨h1, h2, h3, h4⟩ := hst
  by_cases hskip : (e.1, e.2) ∈ st.rels ∨ (e.2, e.1) ∈ st.rels
  · rw [stepEdgeGen_skipped g st e hskip]
    exact ⟨h1, h2, h3, h4⟩
  · have hn1 : (e.1, e.2) ∉ st.rels := fun hc => hskip (Or.inl hc)
    have hn2 : (e.2, e.1) ∉ st.rels := fun hc => hskip (Or.inr hc)
    have hrels : (stepEdgeGen g st e).rels = st.rels ++ [(e.1, e.2)] := by
      simp [stepEdgeGen, hskip]
    have htag1 : relTags (if e.1 ∈ st.nodes then [] else introBlockGen g e.1) = [] := by
      by_cases hc : e.1 ∈ st.nodes
      · rw [if_pos hc]; rfl
      · rw [if_neg hc]; exact relTags_introBlockGen g e.1
    have htag2 : relTags (if e.2 ∈ (if e.1 ∈ st.nodes then st.nodes else st.nodes ++ [e.1])
        then [] else introBlockGen g e.2) = [] := by
      by_cases hc : e.2 ∈ (if e.1 ∈ st.nodes then st.nodes else st.nodes ++ [e.1])
      · rw [if_pos hc]; rfl
      · rw [if_neg hc]; exact relTags_introBlockGen g e.2
    have hevs : (stepEdgeGen g st e).evs = st.evs
        ++ (if e.1 ∈ st.nodes then [] else introBlockGen g e.1)
        ++ (if e.2 ∈ (if e.1 ∈ st.nodes then st.nodes else st.nodes ++ [e.1]) then []
            else introBlockGen g e.2)
        ++ relPieceEvs (g.labelOf e.1 e.2) e.1 e.2 (g.typeOf e.1) ++ [Ev.txt "\n"] := by
      simp only [stepEdgeGen, if_neg hskip]
    have htags : relTags (stepEdgeGen g st e).evs =
        relTags st.evs
          ++ relTags (relPieceEvs (g.labelOf e.1 e.2) e.1 e.2 (g.typeOf e.1)) := by
      rw [hevs, relTags_append, relTags_append, relTags_append, relTags_append, htag1, htag2]
      simp [relTags]
    have huEqbL : ∀ p ∈ st.rels, uEqb p (e.1, e.2) = false := by
      intro p hp
      have hne1 : p ≠ (e.1, e.2) := fun hc => hn1 (hc ▸ hp)
      have hne2 : p ≠ (e.2, e.1) := fun hc => hn2 (hc ▸ hp)
      simp only [uEqb, Bool.or_eq_false_iff, beq_eq_false_iff_ne]
      exact ⟨hne1, hne2⟩
    have huEqbR : ∀ q ∈ st.rels, uEqb (e.1, e.2) q = false := by
      intro q hq
      cases q with
      | mk qa qb =>
        have hne1 : ((e.1, e.2) : String × String) ≠ (qa, qb) := by
          intro hc
          exact hn1 (by rw [hc]; exact hq)
        have hne2 : ((e.1, e.2) : String × String) ≠ (qb, qa) := by
          intro hc
          rw [Prod.mk.injEq] at hc
          refine hn2 ?_
          rw [hc.2, hc.1]
          exact hq
        simp only [uEqb, Bool.or_eq_false_iff, beq_eq_false_iff_ne]
        exact ⟨hne1, hne2⟩
    rcases relTags_relPieceEvs (g.labelOf e.1 e.2) e.1 e.2 (g.typeOf e.1) with hnew | hnew
    · refine ⟨?_, ?_, ?_, ?_⟩
      · intro p hp
        rw [htags, hnew, List.append_nil] at hp
        rw [hrels]
        exact List.mem_append_left _ (h1 p hp)
      · rw [htags, hnew, List.append_nil]
        exact h2
      · intro q hq
        rw [hrels]
        exact List.mem_append_left _ (h3 q hq)
      · intro p hp
        rw [htags, hnew, List.append_nil] at hp
        exact h4 p hp
    · refine ⟨?_, ?_, ?_, ?_⟩
      · intro p hp
        rw [htags, hnew] at hp
        rw [hrels]
        rcases List.mem_append.mp hp with hp | hp
        · exact List.mem_append_left _ (h1 p hp)
        · exact List.mem_append_right _ hp
      · rw [htags, hnew]
        refine List.pairwise_append.mpr ⟨h2, List.pairwise_singleton _ _, ?_⟩
        intro a ha b hb
        rw [List.mem_singleton.mp hb]
        exact huEqbL a (h1 a ha)
      · intro q hq
        rw [hrels]
        exact List.mem_append_left _ (h3 q hq)
      · intro p hp
        rw [htags, hnew] at hp
        rcases List.mem_append.mp hp with hp | hp
        · exact h4 p hp
        · intro q hq
          rw [List.mem_singleton.mp hp]
          exact huEqbR q (h3 q hq)

theorem phaseBGen_relInv (g : KG) (fuel : Nat) (plotsLow : String)
    (nodes0 : List String) (rels0 base : List (String × String))
    (hbase : ∀ q ∈ base, q ∈ rels0) :
    RelInv base (phaseBGen g fuel plotsLow nodes0 rels0) := by
  unfold phaseBGen
  refine foldl_preserve (RelInv base) _ ?_ g.nodes ⟨[], nodes0, rels0⟩
    ⟨by simp [relTags], by simp [relTags], hbase, by simp [relTags]⟩
  intro st nd hst
  split
  · exact foldl_preserve (RelInv base) _
      (fun a b ha => stepEdgeGen_rel_preserve g base a b ha) _ st hst
  · exact hst

theorem relTags_phaseAGen
    (sampler : List (String × String) → Nat → List (String × String))
    (depth : Int) (kbs : List KB) :
    relTags (phaseAGen sampler depth kbs).evs = (phaseAGen sampler depth kbs).rels := by
  unfold phaseAGen
  rw [phaseAGen_fold_spec]
  simp only [List.nil_append]
  induction kbs with
  | nil => rfl
  | cons kb rest ih =>
    simp only [List.map_cons, List.flatten_cons, relTags_append, relTags_kbBlockGen]
    rw [ih]

theorem stepEdgeTrain_rel_preserve (g : KG) (base : List (String × String))
    (st : BState) (e : String × String) (hst : RelInv base st) :
    RelInv base (stepEdgeTrain g st e) := by
  obtain ⟨h1, h2, h3, h4⟩ := hst
  by_cases hskip : (e.1, e.2) ∈ st.rels ∨ (e.2, e.1) ∈ st.rels
  · rw [stepEdgeTrain_skipped g st e hskip]
    exact ⟨h1, h2, h3, h4⟩
  · have hn1 : (e.1, e.2) ∉ st.rels := fun hc => hskip (Or.inl hc)
    have hn2 : (e.2, e.1) ∉ st.rels := fun hc => hskip (Or.inr hc)
    have hrels : (stepEdgeTrain g st e).rels = st.rels ++ [(e.1, e.2)] := by
      simp [stepEdgeTrain, hskip]
    have htag1 : relTags (if e.1 ∈ st.nodes then [] else introBlockGen g e.1) = [] := by
      by_cases hc : e.1 ∈ st.nodes
      · rw [if_pos hc]; rfl
      · rw [if_neg hc]; exact relTags_introBlockGen g e.1
    have htag2 : relTags (if e.2 ∈ (if e.1 ∈ st.nodes then st.nodes else st.nodes ++ [e.1])
        then [] else introBlockTrainTarget g e.1 e.2) = [] := by
      by_cases hc : e.2 ∈ (if e.1 ∈ st.nodes then st.nodes else st.nodes ++ [e.1])
      · rw [if_pos hc]; rfl
      · rw [if_neg hc]; exact relTags_introBlockTrainTarget g e.1 e.2
    have hevs : (stepEdgeTrain g st e).evs = st.evs
        ++ (if e.1 ∈ st.nodes then [] else introBlockGen g e.1)
        ++ (if e.2 ∈ (if e.1 ∈ st.nodes then st.nodes else st.nodes ++ [e.1]) then []
            else introBlockTrainTarget g e.1 e.2)
        ++ relPieceEvs (g.labelOf e.1 e.2) e.1 e.2 (g.typeOf e.1) ++ [Ev.txt "\n"] := by
      simp only [stepEdgeTrain, if_neg hskip]
    have htags : relTags (stepEdgeTrain g st e).evs =
        relTags st.evs
          ++ relTags (relPieceEvs (g.labelOf e.1 e.2) e.1 e.2 (g.typeOf e.1)) := by
      rw [hevs, relTags_append, relTags_append, relTags_append, relTags_append, htag1, htag2]
      simp [relTags]
    have huEqbL : ∀ p ∈ st.rels, uEqb p (e.1, e.2) = false := by
      intro p hp
      have hne1 : p ≠ (e.1, e.2) := fun hc => hn1 (hc ▸ hp)
      have hne2 : p ≠ (e.2, e.1) := fun hc => hn2 (hc ▸ hp)
      simp only [uEqb, Bool.or_eq_false_iff, beq_eq_false_iff_ne]
      exact ⟨hne1, hne2⟩
    have huEqbR : ∀ q ∈ st.rels, uEqb (e.1, e.2) q = false := by
      intro q hq
      cases q with
      | mk qa qb =>
        have hne1 : ((e.1, e.2) : String × String) ≠ (qa, qb) := by
          intro hc
          exact hn1 (by rw [hc]; exact hq)
        have hne2 : ((e.1, e.2) : String × String) ≠ (qb, qa) := by
          intro hc
          rw [Prod.mk.injEq] at hc
          refine hn2 ?_
          rw [hc.2, hc.1]
          exact hq
        simp only [uEqb, Bool.or_eq_false_iff, beq_eq_false_iff_ne]
        exact ⟨hne1, hne2⟩
    rcases relTags_relPieceEvs (g.labelOf e.1 e.2) e.1 e.2 (g.typeOf e.1) with hnew | hnew
    · refine ⟨?_, ?_, ?_, ?_⟩
      · intro p hp
        rw [htags, hnew, List.append_nil] at hp
        rw [hrels]
        exact List.mem_append_left _ (h1 p hp)
      · rw [htags, hnew, List.append_nil]
        exact h2
      · intro q hq
        rw [hrels]
        exact List.mem_append_left _ (h3 q hq)
      · intro p hp
        rw [htags, hnew, List.append_nil] at hp
        exact h4 p hp
    · refine ⟨?_, ?_, ?_, ?_⟩
      · intro p hp
        rw [htags, hnew] at hp
        rw [hrels]
        rcases List.mem_append.mp hp with hp | hp
        · exact List.mem_append_left _ (h1 p hp)
        · exact List.mem_append_right _ hp
      · rw [htags, hnew]
        refine List.pairwise_append.mpr ⟨h2, List.pairwise_singleton _ _, ?_⟩
        intro a ha b hb
        rw [List.mem_singleton.mp hb]
        exact huEqbL a (h1 a ha)
      · intro q hq
        rw [hrels]
        exact List.mem_append_left _ (h3 q hq)
      · intro p hp
        rw [htags, hnew] at hp
        rcases List.mem_append.mp hp with hp | hp
        · exact h4 p hp
        · intro q hq
          rw [List.mem_singleton.mp hp]
          exact huEqbR q (h3 q hq)

theorem phaseBTrain_relInv (g : KG) (fuel : Nat) (plotsLow : String)
    (nodes0 : List String) (rels0 base : List (String × String))
    (hbase : ∀ q ∈ base, q ∈ rels0) :
    RelInv base (phaseBTrain g fuel plotsLow nodes0 rels0) := by
  unfold phaseBTrain
  refine foldl_preserve (RelInv base) _ ?_ g.nodes ⟨[], nodes0, rels0⟩
    ⟨by simp [relTags], by simp [relTags], hbase, by simp [relTags]⟩
  intro st nd hst
  split
  · exact foldl_preserve (RelInv base) _
      (fun a b ha => stepEdgeTrain_rel_preserve g base a b ha) _ st hst
  · exact hst

theorem relTags_phaseATrain (kbs : List KB) :
    relTags (phaseATrain kbs).evs = (phaseATrain kbs).rels := by
  unfold phaseATrain
  rw [phaseATrain_fold_spec]
  simp only [List.nil_append]
  induction kbs with
  | nil => rfl
  | cons kb rest ih =>
    simp only [List.map_cons, List.flatten_cons, relTags_append, relTags_kbBlockTrain]
    rw [ih]

/-- Claim C5 (amended): within one composition call, in both the generation
and the training path, no Phase B relation sentence repeats an unordered
entity pair — the Phase B relation-sentence pairs are pairwise distinct as
unordered pairs and are distinct from every pair already recorded when
Phase B starts (which includes every Phase A relation pair, since Phase A
of either path records each pair it emits); Phase A itself performs no such
lookup and may repeat pairs (see the counterexample). -/
theorem c5_phaseB_pairs_once
    (sampler : List (String × String) → Nat → List (String × String))
    (depth : Int) (kbs : List KB) (g : KG) (fuel : Nat) (plotsLow : String)
    (nodes0 : List String) (rels0 base : List (String × String))
    (hbase : ∀ q ∈ base, q ∈ rels0) :
    List.Pairwise (fun p q => uEqb p q = false)
      (relTags (phaseBGen g fuel plotsLow nodes0 rels0).evs) ∧
    (∀ p ∈ relTags (phaseBGen g fuel plotsLow nodes0 rels0).evs,
      ∀ q ∈ base, uEqb p q = false) ∧
    List.Pairwise (fun p q => uEqb p q = false)
      (relTags (phaseBTrain g fuel plotsLow nodes0 rels0).evs) ∧
    (∀ p ∈ relTags (phaseBTrain g fuel plotsLow nodes0 rels0).evs,
      ∀ q ∈ base, uEqb p q = false) ∧
    (∀ p ∈ relTags (phaseAGen sampler depth kbs).evs,
      p ∈ (phaseAGen sampler depth kbs).rels) ∧
    (∀ p ∈ relTags (phaseATrain kbs).evs, p ∈ (phaseATrain kbs).rels) := by
  have h := phaseBGen_relInv g fuel plotsLow nodes0 rels0 base hbase
  have ht := phaseBTrain_relInv g fuel plotsLow nodes0 rels0 base hbase
  refine ⟨h.2.1, h.2.2.2, ht.2.1, ht.2.2.2, ?_, ?_⟩
  · intro p hp
    rw [relTags_phaseAGen] at hp
    exact hp
  · intro p hp
    rw [relTags_phaseATrain] at hp
    exact hp

/-- Claim C5 (witness): the Phase B dedup conclusions of both composers at a
concrete graph with one traversed edge and a concrete pre-recorded pair. -/
theorem c5_phaseB_pairs_once_witness :
    List.Pairwise (fun p q => uEqb p q = false)
      (relTags (phaseBGen g1 2 "a" [] [("X", "Y")]).evs) ∧
    (∀ p ∈ relTags (phaseBGen g1 2 "a" [] [("X", "Y")]).evs,
      ∀ q ∈ [(("X" : String), ("Y" : String))], uEqb p q = false) ∧
    List.Pairwise (fun p q => uEqb p q = false)
      (relTags (phaseBTrain g1 2 "a" [] [("X", "Y")]).evs) ∧
    (∀ p ∈ relTags (phaseBTrain g1 2 "a" [] [("X", "Y")]).evs,
      ∀ q ∈ [(("X" : String), ("Y" : String))], uEqb p q = false) ∧
    (∀ p ∈ relTags (phaseAGen sTake 2 [kbW]).evs, p ∈ (phaseAGen sTake 2 [kbW]).rels) ∧
    (∀ p ∈ relTags (phaseATrain [kbW]).evs, p ∈ (phaseATrain [kbW]).rels) :=
  c5_phaseB_pairs_once sTake 2 [kbW] g1 2 "a" [] [("X", "Y")] [("X", "Y")]
    (fun q hq => hq)

theorem introStep_preserve (baseN tags nodes : List String) (x : String)
    (h1 : tags.Nodup) (h2 : ∀ t ∈ tags, t ∈ nodes) (h3 : ∀ n ∈ baseN, n ∈ nodes)
    (h4 : ∀ t ∈ tags, t ∉ baseN) :
    (tags ++ (if x ∈ nodes then [] else [x])).Nodup ∧
    (∀ t ∈ tags ++ (if x ∈ nodes then [] else [x]),
      t ∈ (if x ∈ nodes then nodes else nodes ++ [x])) ∧
    (∀ n ∈ baseN, n ∈ (if x ∈ nodes then nodes else nodes ++ [x])) ∧
    (∀ t ∈ tags ++ (if x ∈ nodes then [] else [x]), t ∉ baseN) := by
  by_cases hx : x ∈ nodes
  · simp only [if_pos hx, List.append_nil]
    exact ⟨h1, h2, h3, h4⟩
  · simp only [if_neg hx]
    refine ⟨?_, ?_, ?_, ?_⟩
    · rw [List.nodup_append]
      refine ⟨h1, List.nodup_singleton x, ?_⟩
      intro a ha hb
      rw [List.mem_singleton.mp hb] at ha
      exact hx (h2 x ha)
    · intro t ht
      rcases List.mem_append.mp ht with ht | ht
      · exact List.mem_append_left _ (h2 t ht)
      · rw [List.mem_singleton.mp ht]
        exact List.mem_append_right _ (List.mem_singleton_self x)
    · intro n hn
      exact List.mem_append_left _ (h3 n hn)
    · intro t ht
      rcases List.mem_append.mp ht with ht | ht
      · exact h4 t ht
      · rw [List.mem_singleton.mp ht]
        intro hc
        exact hx (h3 x hc)

theorem stepEdgeGen_intro_preserve (g : KG) (baseN : List String)
    (st : BState) (e : String × String) (hst : IntroInv baseN st) :
    IntroInv baseN (stepEdgeGen g st e) := by
  obtain ⟨h1, h2, h3, h4⟩ := hst
  by_cases hskip : (e.1, e.2) ∈ st.rels ∨ (e.2, e.1) ∈ st.rels
  · rw [stepEdgeGen_skipped g st e hskip]
    exact ⟨h1, h2, h3, h4⟩
  · have hevs : (stepEdgeGen g st e).evs = st.evs
        ++ (if e.1 ∈ st.nodes then [] else introBlockGen g e.1)
        ++ (if e.2 ∈ (if e.1 ∈ st.nodes then st.nodes else st.nodes ++ [e.1]) then []
            else introBlockGen g e.2)
        ++ relPieceEvs (g.labelOf e.1 e.2) e.1 e.2 (g.typeOf e.1) ++ [Ev.txt "\n"] := by
      simp only [stepEdgeGen, if_neg hskip]
    have hnodes : (stepEdgeGen g st e).nodes =
        (if e.2 ∈ (if e.1 ∈ st.nodes then st.nodes else st.nodes ++ [e.1])
          then (if e.1 ∈ st.nodes then st.nodes else st.nodes ++ [e.1])
          else (if e.1 ∈ st.nodes then st.nodes else st.nodes ++ [e.1]) ++ [e.2]) := by
      simp only [stepEdgeGen, if_neg hskip]
    have htB1 : introTags (if e.1 ∈ st.nodes then [] else introBlockGen g e.1) =
        (if e.1 ∈ st.nodes then [] else [e.1]) := by
      by_cases hc : e.1 ∈ st.nodes
      · rw [if_pos hc, if_pos hc]; rfl
      · rw [if_neg hc, if_neg hc]; exact introTags_introBlockGen g e.1
    have htB2 : introTags (if e.2 ∈ (if e.1 ∈ st.nodes then st.nodes else st.nodes ++ [e.1])
        then [] else introBlockGen g e.2) =
        (if e.2 ∈ (if e.1 ∈ st.nodes then st.nodes else st.nodes ++ [e.1])
          then [] else [e.2]) := by
      by_cases hc : e.2 ∈ (if e.1 ∈ st.nodes then st.nodes else st.nodes ++ [e.1])
      · rw [if_pos hc, if_pos hc]; rfl
      · rw [if_neg hc, if_neg hc]; exact introTags_introBlockGen g e.2
    have htags : introTags (stepEdgeGen g st e).evs =
        (introTags st.evs ++ (if e.1 ∈ st.nodes then [] else [e.1]))
          ++ (if e.2 ∈ (if e.1 ∈ st.nodes then st.nodes else st.nodes ++ [e.1])
              then [] else [e.2]) := by
      rw [hevs, introTags_append, introTags_append, introTags_append, introTags_append,
        htB1, htB2, introTags_relPieceEvs]
      simp [introTags]
    obtain ⟨k1, k2, k3, k4⟩ :=
      introStep_preserve baseN (introTags st.evs) st.nodes e.1 h1 h2 h3 h4
    obtain ⟨m1, m2, m3, m4⟩ :=
      introStep_preserve baseN (introTags st.evs ++ (if e.1 ∈ st.nodes then [] else [e.1]))
        (if e.1 ∈ st.nodes then st.nodes else st.nodes ++ [e.1]) e.2 k1 k2 k3 k4
    refine ⟨?_, ?_, ?_, ?_⟩
    · rw [htags]; exact m1
    · intro t ht
      rw [htags] at ht
      rw [hnodes]
      exact m2 t ht
    · intro n hn
      rw [hnodes]
      exact m3 n hn
    · intro t ht
      rw [htags] at ht
      exact m4 t ht

theorem stepEdgeTrain_intro_preserve (g : KG) (baseN : List String)
    (st : BState) (e : String × String) (hst : IntroInv baseN st) :
    IntroInv baseN (stepEdgeTrain g st e) := by
  obtain ⟨h1, h2, h3, h4⟩ := hst
  by_cases hskip : (e.1, e.2) ∈ st.rels ∨ (e.2, e.1) ∈ st.rels
  · rw [stepEdgeTrain_skipped g st e hskip]
    exact ⟨h1, h2, h3, h4⟩
  · have hevs : (stepEdgeTrain g st e).evs = st.evs
        ++ (if e.1 ∈ st.nodes then [] else introBlockGen g e.1)
        ++ (if e.2 ∈ (if e.1 ∈ st.nodes then st.nodes else st.nodes ++ [e.1]) then []
            else introBlockTrainTarget g e.1 e.2)
        ++ relPieceEvs (g.labelOf e.1 e.2) e.1 e.2 (g.typeOf e.1) ++ [Ev.txt "\n"] := by
      simp only [stepEdgeTrain, if_neg hskip]
    have hnodes : (stepEdgeTrain g st e).nodes =
        (if e.2 ∈ (if e.1 ∈ st.nodes then st.nodes else st.nodes ++ [e.1])
          then (if e.1 ∈ st.nodes then st.nodes else st.nodes ++ [e.1])
          else (if e.1 ∈ st.nodes then st.nodes else st.nodes ++ [e.1]) ++ [e.2]) := by
      simp only [stepEdgeTrain, if_neg hskip]
    have htB1 : introTags (if e.1 ∈ st.nodes then [] else introBlockGen g e.1) =
        (if e.1 ∈ st.nodes then [] else [e.1]) := by
      by_cases hc : e.1 ∈ st.nodes
      · rw [if_pos hc, if_pos hc]; rfl
      · rw [if_neg hc, if_neg hc]; exact introTags_introBlockGen g e.1
    have htB2 : introTags (if e.2 ∈ (if e.1 ∈ st.nodes then st.nodes else st.nodes ++ [e.1])
        then [] else introBlockTrainTarget g e.1 e.2) =
        (if e.2 ∈ (if e.1 ∈ st.nodes then st.nodes else st.nodes ++ [e.1])
          then [] else [e.2]) := by
      by_cases hc : e.2 ∈ (if e.1 ∈ st.nodes then st.nodes else st.nodes ++ [e.1])
      · rw [if_pos hc, if_pos hc]; rfl
      · rw [if_neg hc, if_neg hc]; exact introTags_introBlockTrainTarget g e.1 e.2
    have htags : introTags (stepEdgeTrain g st e).evs =
        (introTags st.evs ++ (if e.1 ∈ st.nodes then [] else [e.1]))
          ++ (if e.2 ∈ (if e.1 ∈ st.nodes then st.nodes else st.nodes ++ [e.1])
              then [] else [e.2]) := by
      rw [hevs, introTags_append, introTags_append, introTags_append, introTags_append,
        htB1, htB2, introTags_relPieceEvs]
      simp [introTags]
    obtain ⟨k1, k2, k3, k4⟩ :=
      introStep_preserve baseN (introTags st.evs) st.nodes e.1 h1 h2 h3 h4
    obtain ⟨m1, m2, m3, m4⟩ :=
      introStep_preserve baseN (introTags st.evs ++ (if e.1 ∈ st.nodes then [] else [e.1]))
        (if e.1 ∈ st.nodes then st.nodes else st.nodes ++ [e.1]) e.2 k1 k2 k3 k4
    refine ⟨?_, ?_, ?_, ?_⟩
    · rw [htags]; exact m1
    · intro t ht
      rw [htags] at ht
      rw [hnodes]
      exact m2 t ht
    · intro n hn
      rw [hnodes]
      exact m3 n hn
    · intro t ht
      rw [htags] at ht
      exact m4 t ht

theorem phaseBGen_introInv (g : KG) (fuel : Nat) (plotsLow : String)
    (nodes0 : List String) (rels0 : List (String × String)) (baseN : List String)
    (hbase : ∀ n ∈ baseN, n ∈ nodes0) :
    IntroInv baseN (phaseBGen g fuel plotsLow nodes0 rels0) := by
  unfold phaseBGen
  refine foldl_preserve (IntroInv baseN) _ ?_ g.nodes ⟨[], nodes0, rels0⟩
    ⟨by simp [introTags], by simp [introTags], hbase, by simp [introTags]⟩
  intro st nd hst
  split
  · exact foldl_preserve (IntroInv baseN) _
      (fun a b ha => stepEdgeGen_intro_preserve g baseN a b ha) _ st hst
  · exact hst

theorem phaseBTrain_introInv (g : KG) (fuel : Nat) (plotsLow : String)
    (nodes0 : List String) (rels0 : List (String × String)) (baseN : List String)
    (hbase : ∀ n ∈ baseN, n ∈ nodes0) :
    IntroInv baseN (phaseBTrain g fuel plotsLow nodes0 rels0) := by
  unfold phaseBTrain
  refine foldl_preserve (IntroInv baseN) _ ?_ g.nodes ⟨[], nodes0, rels0⟩
    ⟨by simp [introTags], by simp [introTags], hbase, by simp [introTags]⟩
  intro st nd hst
  split
  · exact foldl_preserve (IntroInv baseN) _
      (fun a b ha => stepEdgeTrain_intro_preserve g baseN a b ha) _ st hst
  · exact hst

theorem nodes_phaseAGen
    (sampler : List (String × String) → Nat → List (String × String))
    (depth : Int) (kbs : List KB) :
    (phaseAGen sampler depth kbs).nodes = kbs.map KB.name := by
  unfold phaseAGen
  rw [phaseAGen_fold_spec]
  simp

theorem nodes_phaseATrain (kbs : List KB) :
    (phaseATrain kbs).nodes = kbs.map KB.name := by
  unfold phaseATrain
  rw [phaseATrain_fold_spec]
  simp

/-- Claim C6 (amended): provided the kb names of the example are pairwise
distinct, every entity is introduced at most once within one composition —
the introduction-event tags of the composed background are without
duplicates, in both the generation and the training path (Phase A
introduces each kb name once and records it; Phase B introduces a node only
when it is not in `completed_nodes` and records it immediately).  Phase A
itself performs no lookup, so duplicate kb names break the property (see
the counterexample), as does the literal substring reading of the claim. -/
theorem c6_intro_events_unique
    (sampler : List (String × String) → Nat → List (String × String))
    (lookup : String → Option KG) (depth : Int) (ex : QEx)
    (hnames : (ex.kbs.map KB.name).Nodup) :
    (∀ evs, bgGenEvs sampler lookup depth ex = some evs → (introTags evs).Nodup) ∧
    (∀ evs, bgTrainEvs lookup depth ex = some evs → (introTags evs).Nodup) := by
  constructor
  · intro evs hevs
    unfold bgGenEvs at hevs
    by_cases hd : 0 < depth
    · rw [if_pos hd] at hevs
      cases hlk : lookup ex.game with
      | none => rw [hlk] at hevs; cases hevs
      | some g =>
        rw [hlk] at hevs
        have hs := Option.some.inj hevs
        rw [← hs, introTags_append, List.nodup_append]
        have hinv := phaseBGen_introInv g depth.toNat (strLower (plotsSection ex))
          (phaseAGen sampler depth ex.kbs).nodes (phaseAGen sampler depth ex.kbs).rels
          (ex.kbs.map KB.name)
          (by rw [nodes_phaseAGen]; exact fun n hn => hn)
        refine ⟨?_, hinv.1, ?_⟩
        · rw [introTags_phaseAGen]; exact hnames
        · intro a ha hb
          rw [introTags_phaseAGen] at ha
          exact hinv.2.2.2 a hb ha
    · rw [if_neg hd] at hevs
      have hs := Option.some.inj hevs
      rw [← hs, introTags_phaseAGen]
      exact hnames
  · intro evs hevs
    unfold bgTrainEvs at hevs
    cases hlk : lookup ex.game with
    | none => rw [hlk] at hevs; cases hevs
    | some g =>
      rw [hlk] at hevs
      have hs := Option.some.inj hevs
      rw [← hs, introTags_append, List.nodup_append]
      have hinv := phaseBTrain_introInv g g.nodes.length (strLower (plotsSection ex))
        (phaseATrain ex.kbs).nodes (phaseATrain ex.kbs).rels
        (ex.kbs.map KB.name)
        (by rw [nodes_phaseATrain]; exact fun n hn => hn)
      refine ⟨?_, hinv.1, ?_⟩
      · rw [introTags_phaseATrain]; exact hnames
      · intro a ha hb
        rw [introTags_phaseATrain] at ha
        exact hinv.2.2.2 a hb ha

/-- Claim C6 (witness): uniqueness of the introduction events at a concrete
example whose single kb name is distinct, in both composers. -/
theorem c6_intro_events_unique_witness :
    (introTags ((bgGenEvs sTake lookupEmpty 2 ex3).getD [])).Nodup ∧
    (introTags ((bgTrainEvs lookupEmpty 2 ex3).getD [])).Nodup := by
  have h := c6_intro_events_unique sTake lookupEmpty 2 ex3 (by decide)
  exact ⟨h.1 _ rfl, h.2 _ rfl⟩
